import Mathlib

/-!
Verification development for the xo-rl-js repository: a tabular
reinforcement-learning agent (Monte-Carlo and Q-learning variants) playing
tic-tac-toe.  The definitions below are a shallow embedding of the game engine
(`game.js`: class TicTacToe), the reward function (`rewards.js`), and the agent
hierarchy (Agent / EpsilonGreedyAgent / MonteCarloAgent / QLearningAgent).
JavaScript numbers are modelled as exact rationals, JS strings as `String`,
board states as `List Char` (cells hold the empty marker `nll`, normally '_',
or a player token 'X'/'O'), and the `Map` objects used for the action-value
table as association lists with JS `Map.set` semantics.
-/

namespace XO

/-- TicTacToe.unroll: convert a (row, col) pair into a single board index. -/
def unroll (row col : ℕ) : ℕ := row * 3 + col

/-- TicTacToe.rot90: rotate a game state clockwise by n * 90 degrees.  The
source builds the rotated array by pushing the listed elements; when `n % 4`
is 0 the original array is returned unchanged.  The second argument is an
`Option` because one call site in the source (the mirrored sweep of
`Agent.getKey`) invokes `rot90` without a rotation count: there `n` is the JS
value `undefined`, `undefined % 4` is `NaN`, no branch of the if/else chain
matches, and the function returns the still-empty `newState` array, modelled
by the `none` case. -/
def rot90 {α : Type} [Inhabited α] (state : List α) (n : Option ℕ) : List α :=
  match n with
  | none => []
  | some m =>
    if m % 4 = 0 then state
    else if m % 4 = 1 then
      [state.getD 6 default, state.getD 3 default, state.getD 0 default,
       state.getD 7 default, state.getD 4 default, state.getD 1 default,
       state.getD 8 default, state.getD 5 default, state.getD 2 default]
    else if m % 4 = 2 then
      [state.getD 8 default, state.getD 7 default, state.getD 6 default,
       state.getD 5 default, state.getD 4 default, state.getD 3 default,
       state.getD 2 default, state.getD 1 default, state.getD 0 default]
    else
      [state.getD 2 default, state.getD 5 default, state.getD 8 default,
       state.getD 1 default, state.getD 4 default, state.getD 7 default,
       state.getD 0 default, state.getD 3 default, state.getD 6 default]

/-- TicTacToe.mirror: mirror a state across its vertical axis.  The source
writes `newState[unroll(i, 2 - j)] = state[unroll(i, j)]` for i, j in 0..2
into a fresh 9-slot array; the fresh array's unset slots are modelled by
`default` (every slot is overwritten for 9-element inputs). -/
def mirror {α : Type} [Inhabited α] (state : List α) : List α :=
  (List.range 3).foldl
    (fun acc i =>
      (List.range 3).foldl
        (fun acc2 j => acc2.set (unroll i (2 - j)) (state.getD (unroll i j) default))
        acc)
    (List.replicate 9 default)

/-- TicTacToe.toActionArray: convert an action index into a 9-element one-hot
marker board.  The JS array holds `null` except for `'A'` at the action's
cell; modelled as `Bool` with `false` for `null`. -/
def toActionArray (index : ℕ) : List Bool :=
  (List.replicate 9 false).set index true

/-- TicTacToe.toActionIndex: index of the first element different from the
empty marker, or `null` (here `none`) if there is none. -/
def toActionIndex (arr : List Bool) : Option ℕ :=
  arr.findIdx? (fun b => b)

/-- Row-win indicator for row `i` and token `tok` (the `rowX`/`rowO` flags of
TicTacToe.checkTermination: the flag stays true iff every cell
`state[unroll(i, j)]` equals the token). -/
def rowOwn (s : List Char) (i : ℕ) (tok : Char) : Bool :=
  (List.range 3).all fun j => s.getD (unroll i j) default == tok

/-- Column-win indicator for column `i` and token `tok` (the `colX`/`colO`
flags of TicTacToe.checkTermination). -/
def colOwn (s : List Char) (i : ℕ) (tok : Char) : Bool :=
  (List.range 3).all fun j => s.getD (unroll j i) default == tok

/-- Top-left to bottom-right diagonal indicator (the `tlX`/`tlO` flags of
TicTacToe.checkTermination). -/
def diagTL (s : List Char) (tok : Char) : Bool :=
  (List.range 3).all fun i => s.getD (unroll i i) default == tok

/-- Top-right to bottom-left diagonal indicator (the `trX`/`trO` flags of
TicTacToe.checkTermination). -/
def diagTR (s : List Char) (tok : Char) : Bool :=
  (List.range 3).all fun i => s.getD (unroll i (2 - i)) default == tok

/-- The `draw` flag of TicTacToe.checkTermination: initialized true, cleared
if any cell `state[unroll(i, j)]` holds the empty marker. -/
def isDraw (s : List Char) (nll : Char) : Bool :=
  (List.range 3).all fun i => (List.range 3).all fun j => !(s.getD (unroll i j) default == nll)

/-- TicTacToe.checkTermination: the source's `for (i = 0..2)` loop is unrolled
here; within each iteration it returns 'X' if row i or column i is an X win,
then 'O' likewise, before moving to the next iteration; the diagonal flags are
consulted only after the loop, then the draw flag. -/
def checkTermination (s : List Char) (nll : Char) : String :=
  if rowOwn s 0 'X' || colOwn s 0 'X' then "X"
  else if rowOwn s 0 'O' || colOwn s 0 'O' then "O"
  else if rowOwn s 1 'X' || colOwn s 1 'X' then "X"
  else if rowOwn s 1 'O' || colOwn s 1 'O' then "O"
  else if rowOwn s 2 'X' || colOwn s 2 'X' then "X"
  else if rowOwn s 2 'O' || colOwn s 2 'O' then "O"
  else if diagTL s 'X' || diagTR s 'X' then "X"
  else if diagTL s 'O' || diagTR s 'O' then "O"
  else if isDraw s nll then "draw"
  else ""

/-- Game state of a TicTacToe instance: the mutable fields of the class
(the UI `buttons` field is always null in the modelled configurations).
Action history entries are stored as the natural numbers pushed by
successful moves (a successful move's index lies in [0, 8]). -/
structure Game where
  nll : Char
  state : List Char
  currentPlayer : Char
  stateHistory : List (List Char)
  actionHistory : List ℕ
deriving Repr, DecidableEq

/-- TicTacToe constructor (with `buttons = null`): empty board, player 'X' to
move, history holding the single initial snapshot.  The constructor's
`InvalidChar` check is vacuous here since a `Char` always has length 1. -/
def initGame (nll : Char) : Game :=
  { nll := nll
    state := [nll, nll, nll, nll, nll, nll, nll, nll, nll]
    currentPlayer := 'X'
    stateHistory := [[nll, nll, nll, nll, nll, nll, nll, nll, nll]]
    actionHistory := [] }

/-- TicTacToe.move: add a piece at `index`.  The three validity checks run
before any mutation (so a thrown `InvalidActionError`, modelled as
`Except.error`, leaves the game value untouched); on success the cell is set,
the player is switched, and the action and a snapshot of the new state are
appended to the histories (in the source the action is pushed and then the
state snapshot). -/
def move (g : Game) (index : ℤ) : Except String Game :=
  if 9 ≤ index ∨ index < 0 then
    Except.error "InvalidActionError: position must be in [0, 9)"
  else if ¬(g.state.getD index.toNat default == g.nll) then
    Except.error "InvalidActionError: position is already taken"
  else if ¬(checkTermination g.state g.nll == "") then
    Except.error "InvalidActionError: game is already complete"
  else
    let newState := g.state.set index.toNat g.currentPlayer
    Except.ok
      { g with
        state := newState
        currentPlayer := if g.currentPlayer == 'X' then 'O' else 'X'
        actionHistory := g.actionHistory ++ [index.toNat]
        stateHistory := g.stateHistory ++ [newState] }

/-- TicTacToe.getValidActions: indices i in 0..8 with `state[i] == nll`,
collected in ascending order.  The method reads only the live `this.state`;
its declaration takes no parameter. -/
def getValidActions (g : Game) : List ℕ :=
  (List.range 9).filter fun i => g.state.getD i default == g.nll

/-- The agents invoke `game.getValidActions(horizon)`; JavaScript silently
drops arguments a function does not declare, so the horizon is discarded and
the result is always computed from the live state. -/
def getValidActionsCall (g : Game) (_horizon : Option ℕ) : List ℕ :=
  getValidActions g

/-- The action-value table `this.Q`: a JS `Map` from string keys to numbers,
modelled as an association list in insertion order. -/
abbrev QMap : Type := List (String × ℚ)

/-- `Map.get` (partial): the value stored at a key, if present
(`Map.has` is `(lookupQ Q k).isSome`). -/
def lookupQ (Q : QMap) (k : String) : Option ℚ :=
  List.lookup k Q

/-- `Map.set`: replace the value of an existing key in place, or append a new
entry, preserving insertion order as a JS `Map` does. -/
def setQ (Q : QMap) (k : String) (v : ℚ) : QMap :=
  if (lookupQ Q k).isSome then
    Q.map fun p => if p.1 == k then (k, v) else p
  else
    Q ++ [(k, v)]

/-- `this.Q.has(key) ? this.Q.get(key) : this.defaultQ`. -/
def qval (Q : QMap) (dflt : ℚ) (k : String) : ℚ :=
  (lookupQ Q k).getD dflt

/-- The JS number-to-string coercion used when an action index is appended to
a key string.  Action indices in this program always lie in 0..8, giving a
single decimal digit; the catch-all matches the general decimal coercion. -/
def numStr (n : ℕ) : String :=
  match n with
  | 0 => "0" | 1 => "1" | 2 => "2" | 3 => "3" | 4 => "4"
  | 5 => "5" | 6 => "6" | 7 => "7" | 8 => "8" | _ => Nat.repr n

/-- Agent._hash: `state.join('') + action`, e.g. "X___O____6". -/
def hash (state : List Char) (action : ℕ) : String :=
  String.mk state ++ numStr action

/-- The hash as applied to the index recovered by toActionIndex inside
getKey's sweeps: JS `'' + null` would yield "null", but in this program the
recovered index of a one-hot marker board is never null. -/
def hashIdx (state : List Char) (idx : Option ℕ) : String :=
  String.mk state ++ (match idx with | some k => numStr k | none => "null")

/-- The candidate keys of getKey's first sweep: for n = 1, 2, 3, the hash of
the state rotated by n quarter-turns together with the action index recovered
from the one-hot marker board rotated by n quarter-turns. -/
def rotSweepKeys (state : List Char) (action : ℕ) : List String :=
  ([1, 2, 3] : List ℕ).map fun n =>
    hashIdx (rot90 state (some n)) (toActionIndex (rot90 (toActionArray action) (some n)))

/-- The candidate keys of getKey's mirrored sweep.  The marker board is
mirrored and rotated by n quarter-turns as in the source, but the state
rotation is the source's `TicTacToe.rot90(mirrorState)` call, which passes no
rotation count: `rot90` receives `undefined` and returns the empty array, so
every candidate key is the bare digit of the recovered action index. -/
def mirrorSweepKeys (state : List Char) (action : ℕ) : List String :=
  ([1, 2, 3] : List ℕ).map fun n =>
    hashIdx (rot90 (mirror state) none)
      (toActionIndex (rot90 (mirror (toActionArray action)) (some n)))

/-- Agent.getKey: return the first candidate key of the rotation sweep that
exists in the table, else the first candidate key of the mirrored sweep that
exists in the table, else the literal hash of the given pair. -/
def getKey (Q : QMap) (state : List Char) (action : ℕ) : String :=
  match (rotSweepKeys state action).find? (fun k => (lookupQ Q k).isSome) with
  | some k => k
  | none =>
    match (mirrorSweepKeys state action).find? (fun k => (lookupQ Q k).isSome) with
    | some k => k
    | none => hash state action

/-- One iteration of the `for ([index, key] of keys.entries())` loop in the
greedy branch of EpsilonGreedyAgent.policy, acting on the pair
(maxVal, bestActions).  `none` models the initial `maxVal = -Infinity`, for
which the tolerance-band test is false and `val > maxVal` is true, so the
first value always becomes the running maximum.  A value strictly within
1.0e-4 of the running maximum is appended to bestActions; a larger value
outside the band replaces the running maximum and resets bestActions. -/
def sweepStep (v : ℕ → ℚ) (st : Option ℚ × List ℕ) (a : ℕ) : Option ℚ × List ℕ :=
  match st.1 with
  | none => (some (v a), [a])
  | some m =>
    if m - 1/10000 < v a ∧ v a < m + 1/10000 then (some m, st.2 ++ [a])
    else if m < v a then (some (v a), [a])
    else st

/-- The full greedy sweep over a list of candidate actions with valuation
`v`. -/
def sweep (v : ℕ → ℚ) (acts : List ℕ) : Option ℚ × List ℕ :=
  acts.foldl (sweepStep v) (none, [])

/-- The `bestActions` tie set computed by the greedy branch of
EpsilonGreedyAgent.policy for the given state: each valid action is mapped to
its canonical key via getKey and valued by the table lookup (or the default
for missing keys), and the running-maximum sweep collects the tie set.  The
policy then returns a uniformly random element of this list. -/
def bestActions (Q : QMap) (dflt : ℚ) (state : List Char) (validActions : List ℕ) : List ℕ :=
  (sweep (fun a => qval Q dflt (getKey Q state a)) validActions).2

/-- EpsilonGreedyAgent.policy in its non-exploring form: the branch taken
whenever `Math.random() < this.epsilon` is false (in particular always when
epsilon has been forced to -1, as QLearningAgent.learn does).  The
MisalignedPlayer check applies only to `horizon = null`; the state is the
live state or the requested history snapshot, while the valid actions come
from `game.getValidActions(horizon)`, whose horizon argument the game
discards.  An empty valid-action list raises InvalidActionError (`none`);
otherwise a random member of the tie set is returned — `r` stands for the
`Math.floor(Math.random() * length)` draw, reduced modulo the length. -/
def policyGreedy (Q : QMap) (dflt : ℚ) (player : Char) (g : Game)
    (horizon : Option ℕ) (r : ℕ) : Option ℕ :=
  if horizon = none ∧ ¬(player == g.currentPlayer) then none
  else
    let state := match horizon with | none => g.state | some h => g.stateHistory.getD h []
    let validActions := getValidActionsCall g horizon
    if validActions = [] then none
    else
      let best := bestActions Q dflt state validActions
      if 0 < best.length then some (best.getD (r % best.length) 0) else none

/-- The per-key update MonteCarloAgent.learn applies when a discounted return
`g` reaches a key: with `q` the stored value (or the default when the key is
absent) and `n` the stored visit count (0 when absent), the new value is
`q * n / (n + 1) + g / (n + 1)` and the new count `n + 1`.  The state pairs
the optional stored value with the count; an absent entry is `(none, 0)`. -/
def mcApply (dflt : ℚ) (st : Option ℚ × ℕ) (g : ℚ) : Option ℚ × ℕ :=
  (some ((st.1.getD dflt) * st.2 / (st.2 + 1) + g / (st.2 + 1)), st.2 + 1)

/-- The fields of a QLearningAgent.  `epsilon` is an `Option` because the
inherited EpsilonGreedyAgent constructor executes `self.epsilon = epsilon`,
which in JavaScript assigns a property of the global object `self`, not of
the instance being constructed: the agent's own field is left undefined
(`none`). -/
structure QAgent where
  player : Char
  Q : QMap
  defaultQ : ℚ
  epsilon : Option ℚ
  discount : ℚ
  alpha : ℚ

/-- The fields of a MonteCarloAgent (same `epsilon` caveat as for
QAgent). -/
structure MCAgent where
  player : Char
  Q : QMap
  defaultQ : ℚ
  countQ : List (String × ℕ)
  epsilon : Option ℚ
  discount : ℚ
  rewards : List ℚ

/-- The MonteCarloAgent constructor: `super(player, epsilon, defaultQ)` runs
Agent's constructor (fresh Q, countQ, stored defaultQ) and then
EpsilonGreedyAgent's constructor body `self.epsilon = epsilon`, which writes
the global `self` rather than the new object, so the object's own epsilon
field remains unset. -/
def mkMonteCarloAgent (player : Char) (_epsilon discount defaultQ : ℚ) : MCAgent :=
  { player := player
    Q := []
    defaultQ := defaultQ
    countQ := []
    epsilon := none
    discount := discount
    rewards := [] }

/-- The QLearningAgent constructor: same chain through EpsilonGreedyAgent, so
the object's own epsilon field again remains unset, while discount and alpha
are stored with `this.` and land on the object. -/
def mkQLearningAgent (player : Char) (_epsilon discount alpha defaultQ : ℚ) : QAgent :=
  { player := player
    Q := []
    defaultQ := defaultQ
    epsilon := none
    discount := discount
    alpha := alpha }

/-- rewards.js terminalOnly: +1 if the outcome equals the player's token, 0
for a draw or a not-yet-terminal game, -1 otherwise.  It forwards its horizon
to `game.checkTermination(horizon)`, but checkTermination declares no
parameter, so the outcome is always that of the live state. -/
def terminalOnly (g : Game) (player : Char) (_horizon : Option ℤ) : ℚ :=
  let outcome := checkTermination g.state g.nll
  if outcome == String.mk [player] then 1
  else if outcome == "draw" || outcome == "" then 0
  else -1

/-- The `for (let i = start; i < end; i += 2)` loop of
QLearningAgent.updateQ, threading the table through the iterations.  `fuel`
is a structural bound on the iteration count (the caller passes one at least
as large as the number of iterations, so the loop stops exactly when
`i < e` fails).  Each iteration computes the reward at horizon i+2, the key
and stored value of the historical pair (s_i, a_i), a greedy action for
horizon i+2 via the policy (learn has forced epsilon to -1), the stored value
of that future pair, and applies the one-step update.  A policy failure
(InvalidActionError / MisalignedPlayerError) aborts, modelled by `none`.
`rs` supplies the policy's random draw for each iteration. -/
def qLoop (g : Game) (pc : Char) (rf : Game → Char → Option ℤ → ℚ)
    (dflt alpha discount : ℚ) (player : Char) (rs : ℕ → ℕ) (e : ℤ) :
    ℕ → ℤ → ℕ → QMap → Option QMap
  | 0, _, _, Q => some Q
  | fuel + 1, i, k, Q =>
    if i < e then
      let reward := rf g pc (some (i + 2))
      let oldKey := getKey Q (g.stateHistory.getD i.toNat []) (g.actionHistory.getD i.toNat 0)
      let oldQ := qval Q dflt oldKey
      match policyGreedy Q dflt player g (some (i + 2).toNat) (rs k) with
      | none => none
      | some futureAction =>
        let futureKey := getKey Q (g.stateHistory.getD (i + 2).toNat []) futureAction
        let futureQ := qval Q dflt futureKey
        qLoop g pc rf dflt alpha discount player rs e fuel (i + 2) (k + 1)
          (setQ Q oldKey (oldQ + alpha * (reward + discount * futureQ - oldQ)))
    else some Q

/-- QLearningAgent.updateQ: compute `start` and `end` from the player choice
and the parity of the history length, run the intermediate-ply loop, then
apply the terminal update `Q(s_end, a_end) += alpha * (terminalReward - Q)`.
The fuel passed to the loop bounds its iteration count. -/
def updateQ (ag : QAgent) (g : Game) (pc : Char) (rf : Game → Char → Option ℤ → ℚ)
    (rs : ℕ → ℕ) : Option QAgent :=
  let len : ℤ := g.stateHistory.length
  let start : ℤ := if pc == 'X' then 0 else 1
  let cond : Bool := (pc == 'X' && len % 2 == 0) || (pc == 'O' && len % 2 != 0)
  let e : ℤ := if cond then len - 2 else len - 3
  match qLoop g pc rf ag.defaultQ ag.alpha ag.discount ag.player rs e
      (e - start).toNat start 0 ag.Q with
  | none => none
  | some Q1 =>
    let terminalReward := rf g pc none
    let terminalKey := getKey Q1 (g.stateHistory.getD e.toNat []) (g.actionHistory.getD e.toNat 0)
    let terminalQ := qval Q1 ag.defaultQ terminalKey
    some { ag with Q := setQ Q1 terminalKey (terminalQ + ag.alpha * (terminalReward - terminalQ)) }

/-! Specification-side definitions: these formalize the wording of the
specification (not the source) and are used to state the claims. -/

/-- Spec wording: the EMPTY-cell indices of a 9-cell board state, in
ascending index order. -/
def emptyCellIndices (s : List Char) (nll : Char) : List ℕ :=
  (List.range 9).filter fun i => s.getD i default == nll

/-- Spec wording: the 8 winning lines — 3 rows, 3 columns, 2 diagonals. -/
def lines : List (List ℕ) :=
  [[0, 1, 2], [3, 4, 5], [6, 7, 8], [0, 3, 6], [1, 4, 7], [2, 5, 8], [0, 4, 8], [2, 4, 6]]

/-- Spec wording: a line is fully owned by a token when all three of its
cells hold that token. -/
def owns (s : List Char) (l : List ℕ) (tok : Char) : Bool :=
  l.all fun k => s.getD k default == tok

/-- Spec wording: some line is fully owned by the token. -/
def wonBy (s : List Char) (tok : Char) : Bool :=
  lines.any fun l => owns s l tok

/-- Spec wording: no cell of the board is EMPTY. -/
def isFull (s : List Char) (nll : Char) : Bool :=
  s.all fun c => !(c == nll)

/-- Modelled from the spec: the candidate keys the claim says the mirrored
sweep of getKey computes — for n = 1, 2, 3 the literal hash of the vertically
mirrored state rotated clockwise by n quarter-turns, paired with the action
index recovered from the mirrored marker board rotated by n quarter-turns.
Compare with `mirrorSweepKeys`, which embeds what the source actually
computes. -/
def specMirrorSweepKeys (state : List Char) (action : ℕ) : List String :=
  ([1, 2, 3] : List ℕ).map fun n =>
    hashIdx (rot90 (mirror state) (some n))
      (toActionIndex (rot90 (mirror (toActionArray action)) (some n)))

/-- Modelled from the spec: the set of legal actions whose canonical-key
value lies within the fixed tolerance 1e-4 of the maximum such value — an
action `a` is within tolerance of the maximum iff every value is below
`value a + 1e-4`. -/
def nearMaxSet (Q : QMap) (dflt : ℚ) (state : List Char) (acts : List ℕ) : List ℕ :=
  acts.filter fun a => acts.all fun b =>
    decide (qval Q dflt (getKey Q state b) < qval Q dflt (getKey Q state a) + 1/10000)

/-- Proof bookkeeping for the greedy sweep: the invariant maintained by the
running-maximum fold after consuming the actions in `seen`. -/
def sweepInv (v : ℕ → ℚ) (seen : List ℕ) (st : Option ℚ × List ℕ) : Prop :=
  ∃ m, st.1 = some m ∧ (∃ c ∈ seen, v c = m)
    ∧ (∀ b ∈ seen, v b < m + 1/10000)
    ∧ (∀ a ∈ st.2, m - 1/10000 < v a)
    ∧ (∀ a ∈ seen, m ≤ v a → a ∈ st.2)

/-! Concrete inputs used by the claims' evaluation theorems. -/

/-- C1 input: board with X at cell 0, rest empty. -/
def stateC1 : List Char := ['X', '_', '_', '_', '_', '_', '_', '_', '_']

/-- C1 input: table holding only the key of the mirrored-then-rotated
variant of (stateC1, action 1): mirror moves X to cell 2 and the marker to
cell 1; one clockwise quarter-turn moves X to cell 8 and the marker to
cell 5, hashing to "________X5". -/
def tableC1 : QMap := [("________X5", 0)]

/-- C2 input: same board as C1 (named separately for the separate claim). -/
def stateC2 : List Char := ['X', '_', '_', '_', '_', '_', '_', '_', '_']

/-- C2 input: table holding the first mirrored-sweep candidate the claim
expects (n = 1). -/
def tableC2 : QMap := [("________X5", 0)]

/-- C5 input: board with three empty cells 6, 7, 8. -/
def stateC5 : List Char := ['X', 'O', 'X', 'O', 'X', 'O', '_', '_', '_']

/-- C5 input: the literal keys of actions 6, 7, 8 on stateC5 with values
0, 9e-5 and 18e-5: the last two are within 1e-4 of the maximum but the
first is not. -/
def tableC5 : QMap :=
  [("XOXOXO___6", 0), ("XOXOXO___7", 9/100000), ("XOXOXO___8", 18/100000)]

/-- C3 input: the six board snapshots of a finished game in which X plays
0, 3, 6 and O plays 1, 2 — X wins column 0. -/
def sh0 : List Char := ['_', '_', '_', '_', '_', '_', '_', '_', '_']

/-- C3 input: after X plays 0. -/
def sh1 : List Char := ['X', '_', '_', '_', '_', '_', '_', '_', '_']

/-- C3 input: after O plays 1. -/
def sh2 : List Char := ['X', 'O', '_', '_', '_', '_', '_', '_', '_']

/-- C3 input: after X plays 3. -/
def sh3 : List Char := ['X', 'O', '_', 'X', '_', '_', '_', '_', '_']

/-- C3 input: after O plays 2. -/
def sh4 : List Char := ['X', 'O', 'O', 'X', '_', '_', '_', '_', '_']

/-- C3 input: after X plays 6 — column 0 is an X win. -/
def sh5 : List Char := ['X', 'O', 'O', 'X', '_', '_', 'X', '_', '_']

/-- C3 input: the finished game. -/
def gameC3 : Game :=
  { nll := '_', state := sh5, currentPlayer := 'O'
    stateHistory := [sh0, sh1, sh2, sh3, sh4, sh5]
    actionHistory := [0, 1, 3, 2, 6] }

/-- C3 input: the Q table before learning.  "XO_______6" values the
historical pair (sh2, action 6) — cell 6 is legal in sh2 but occupied in the
terminal board sh5.  "XO_______4" and "XOOX_____5" give the policy unique
maxima over the terminal board's empty cells at the two loop iterations. -/
def tableC3 : QMap := [("XO_______6", 5), ("XO_______4", 2), ("XOOX_____5", 3)]

/-- C3 input: the Q-learning agent (alpha 1, discount 1, default 0). -/
def agentC3 : QAgent :=
  { player := 'X', Q := tableC3, defaultQ := 0, epsilon := none, discount := 1, alpha := 1 }

/-- C3: the table after the first loop iteration (i = 0). -/
def tableC3a : QMap :=
  [("XO_______6", 5), ("XO_______4", 2), ("XOOX_____5", 3), ("_________0", 3)]

/-- C3: the table after the second loop iteration (i = 2). -/
def tableC3b : QMap :=
  [("XO_______6", 5), ("XO_______4", 2), ("XOOX_____5", 3), ("_________0", 3),
   ("XO_______3", 4)]

/-- C3: the table after the final terminal update. -/
def tableC3c : QMap :=
  [("XO_______6", 5), ("XO_______4", 2), ("XOOX_____5", 3), ("_________0", 3),
   ("XO_______3", 4), ("XOOX_____6", 1)]

/-- C4 input: a fresh game after X moves at index 0. -/
def gameC4 : Game :=
  ((move (initGame '_') 0).toOption).getD (initGame '_')

/-- C8 witness input: the game produced by the first move at index 0. -/
def gameC8 : Game :=
  { nll := '_'
    state := ['X', '_', '_', '_', '_', '_', '_', '_', '_']
    currentPlayer := 'O'
    stateHistory := [['_', '_', '_', '_', '_', '_', '_', '_', '_'],
      ['X', '_', '_', '_', '_', '_', '_', '_', '_']]
    actionHistory := [0] }

/-- C9 witness input: row 0 is an X win and no other line is owned. -/
def stateC9 : List Char := ['X', 'X', 'X', 'O', 'O', '_', '_', '_', '_']

/-- C10 witness input: a 9-element board of distinct cells. -/
def stateC10 : List Char := ['a', 'b', 'c', 'd', 'e', 'f', 'g', 'h', 'i']

/-! Helper lemmas. -/

theorem nine_elems {α : Type} (s : List α) (h : s.length = 9) :
    ∃ c0 c1 c2 c3 c4 c5 c6 c7 c8, s = [c0, c1, c2, c3, c4, c5, c6, c7, c8] := by
  rcases s with _ | ⟨c0, s⟩; · simp at h
  rcases s with _ | ⟨c1, s⟩; · simp at h
  rcases s with _ | ⟨c2, s⟩; · simp at h
  rcases s with _ | ⟨c3, s⟩; · simp at h
  rcases s with _ | ⟨c4, s⟩; · simp at h
  rcases s with _ | ⟨c5, s⟩; · simp at h
  rcases s with _ | ⟨c6, s⟩; · simp at h
  rcases s with _ | ⟨c7, s⟩; · simp at h
  rcases s with _ | ⟨c8, s⟩; · simp at h
  rcases s with _ | ⟨c9, s⟩
  · exact ⟨c0, c1, c2, c3, c4, c5, c6, c7, c8, rfl⟩
  · simp at h

set_option maxHeartbeats 2000000 in
theorem wonBy_flags (s : List Char) (tok : Char) :
    wonBy s tok = ((rowOwn s 0 tok || colOwn s 0 tok)
      || ((rowOwn s 1 tok || colOwn s 1 tok)
      || ((rowOwn s 2 tok || colOwn s 2 tok)
      || (diagTL s tok || diagTR s tok)))) := by
  have r0 : rowOwn s 0 tok = owns s [0, 1, 2] tok := rfl
  have r1 : rowOwn s 1 tok = owns s [3, 4, 5] tok := rfl
  have r2 : rowOwn s 2 tok = owns s [6, 7, 8] tok := rfl
  have c0 : colOwn s 0 tok = owns s [0, 3, 6] tok := rfl
  have c1 : colOwn s 1 tok = owns s [1, 4, 7] tok := rfl
  have c2 : colOwn s 2 tok = owns s [2, 5, 8] tok := rfl
  have d0 : diagTL s tok = owns s [0, 4, 8] tok := rfl
  have d1 : diagTR s tok = owns s [2, 4, 6] tok := rfl
  rw [r0, r1, r2, c0, c1, c2, d0, d1]
  simp only [wonBy, lines, List.any_cons, List.any_nil, Bool.or_false]
  rw [Bool.eq_iff_iff]
  simp only [Bool.or_eq_true]
  tauto

set_option maxHeartbeats 3000000 in
theorem ct_cases (s : List Char) (nll : Char) :
    (checkTermination s nll = "X" ∧ wonBy s 'X' = true) ∨
    (checkTermination s nll = "O" ∧ wonBy s 'O' = true) ∨
    (wonBy s 'X' = false ∧ wonBy s 'O' = false ∧
      checkTermination s nll = (if isDraw s nll then "draw" else "")) := by
  rw [checkTermination, wonBy_flags s 'X', wonBy_flags s 'O']
  cases hx0 : (rowOwn s 0 'X' || colOwn s 0 'X') <;>
    cases ho0 : (rowOwn s 0 'O' || colOwn s 0 'O') <;>
    cases hx1 : (rowOwn s 1 'X' || colOwn s 1 'X') <;>
    cases ho1 : (rowOwn s 1 'O' || colOwn s 1 'O') <;>
    cases hx2 : (rowOwn s 2 'X' || colOwn s 2 'X') <;>
    cases ho2 : (rowOwn s 2 'O' || colOwn s 2 'O') <;>
    cases hxd : (diagTL s 'X' || diagTR s 'X') <;>
    cases hod : (diagTL s 'O' || diagTR s 'O') <;>
    simp [hx0, ho0, hx1, ho1, hx2, ho2, hxd, hod]

theorem owns_not_both {s : List Char} {l : List ℕ} (hl : l ∈ lines)
    (hx : owns s l 'X' = true) (ho : owns s l 'O' = true) : False := by
  simp only [lines, List.mem_cons, List.not_mem_nil, or_false] at hl
  rcases hl with rfl | rfl | rfl | rfl | rfl | rfl | rfl | rfl <;>
    simp only [owns, List.all_cons, List.all_nil, Bool.and_true, Bool.and_eq_true,
      beq_iff_eq] at hx ho <;>
    exact absurd (hx.1.symm.trans ho.1) (by decide)

theorem ct_X {s : List Char} {nll : Char} (hX : wonBy s 'X' = true)
    (hO : wonBy s 'O' = false) : checkTermination s nll = "X" := by
  rcases ct_cases s nll with ⟨h, _⟩ | ⟨_, hw⟩ | ⟨hw, _, _⟩
  · exact h
  · simp [hO] at hw
  · simp [hX] at hw

theorem ct_O {s : List Char} {nll : Char} (hO : wonBy s 'O' = true)
    (hX : wonBy s 'X' = false) : checkTermination s nll = "O" := by
  rcases ct_cases s nll with ⟨_, hw⟩ | ⟨h, _⟩ | ⟨_, hw, _⟩
  · simp [hX] at hw
  · exact h
  · simp [hO] at hw

theorem ct_none {s : List Char} {nll : Char} (hX : wonBy s 'X' = false)
    (hO : wonBy s 'O' = false) :
    checkTermination s nll = (if isDraw s nll then "draw" else "") := by
  rcases ct_cases s nll with ⟨_, hw⟩ | ⟨_, hw⟩ | ⟨_, _, h⟩
  · simp [hX] at hw
  · simp [hO] at hw
  · exact h

theorem isDraw_eq_isFull {s : List Char} (nll : Char) (h9 : s.length = 9) :
    isDraw s nll = isFull s nll := by
  obtain ⟨c0, c1, c2, c3, c4, c5, c6, c7, c8, rfl⟩ := nine_elems s h9
  have hd : isDraw [c0, c1, c2, c3, c4, c5, c6, c7, c8] nll =
      ((!(c0 == nll) && (!(c1 == nll) && (!(c2 == nll) && true))) &&
       ((!(c3 == nll) && (!(c4 == nll) && (!(c5 == nll) && true))) &&
        ((!(c6 == nll) && (!(c7 == nll) && (!(c8 == nll) && true))) && true))) := rfl
  have hf : isFull [c0, c1, c2, c3, c4, c5, c6, c7, c8] nll =
      (!(c0 == nll) && (!(c1 == nll) && (!(c2 == nll) && (!(c3 == nll) &&
       (!(c4 == nll) && (!(c5 == nll) && (!(c6 == nll) && (!(c7 == nll) &&
        (!(c8 == nll) && true))))))))) := rfl
  rw [hd, hf]
  simp only [Bool.and_true, Bool.and_assoc]

theorem step_inv (v : ℕ → ℚ) (a : ℕ) {seen : List ℕ} {st : Option ℚ × List ℕ}
    (h : sweepInv v seen st) : sweepInv v (seen ++ [a]) (sweepStep v st a) := by
  obtain ⟨m, h1, ⟨c, hc, hcm⟩, h2, h3, h4⟩ := h
  rcases st with ⟨st1, best⟩
  simp only at h1 h3 h4
  subst h1
  by_cases hband : m - 1/10000 < v a ∧ v a < m + 1/10000
  · refine ⟨m, by simp only [sweepStep]; rw [if_pos hband], ⟨c, by simp [hc], hcm⟩, ?_, ?_, ?_⟩
    · intro b hb
      rcases List.mem_append.mp hb with hb | hb
      · exact h2 b hb
      · rw [List.mem_singleton.mp hb]; exact hband.2
    · intro x hx
      simp only [sweepStep, if_pos hband] at hx ⊢
      rcases List.mem_append.mp hx with hx | hx
      · exact h3 x hx
      · rw [List.mem_singleton.mp hx]; exact hband.1
    · intro x hx hmx
      simp only [sweepStep, if_pos hband]
      rcases List.mem_append.mp hx with hx | hx
      · exact List.mem_append.mpr (Or.inl (h4 x hx hmx))
      · rw [List.mem_singleton.mp hx]; exact List.mem_append.mpr (Or.inr (by simp))
  · by_cases hgt : m < v a
    · have hge : m + 1/10000 ≤ v a := by
        by_contra hlt
        push_neg at hlt
        exact hband ⟨by linarith, hlt⟩
      refine ⟨v a, by simp only [sweepStep]; rw [if_neg hband, if_pos hgt],
        ⟨a, by simp, rfl⟩, ?_, ?_, ?_⟩
      · intro b hb
        rcases List.mem_append.mp hb with hb | hb
        · have := h2 b hb; linarith
        · rw [List.mem_singleton.mp hb]; linarith
      · intro x hx
        simp only [sweepStep, if_neg hband, if_pos hgt] at hx
        rw [List.mem_singleton.mp hx]; linarith
      · intro x hx hmx
        simp only [sweepStep, if_neg hband, if_pos hgt]
        rcases List.mem_append.mp hx with hx | hx
        · have := h2 x hx; linarith
        · rw [List.mem_singleton.mp hx]; simp
    · have hle : v a ≤ m - 1/10000 := by
        push_neg at hgt
        by_contra hlt
        push_neg at hlt
        exact hband ⟨hlt, by linarith⟩
      refine ⟨m, by simp only [sweepStep]; rw [if_neg hband, if_neg hgt],
        ⟨c, by simp [hc], hcm⟩, ?_, ?_, ?_⟩
      · intro b hb
        rcases List.mem_append.mp hb with hb | hb
        · exact h2 b hb
        · rw [List.mem_singleton.mp hb]; linarith
      · intro x hx
        simp only [sweepStep, if_neg hband, if_neg hgt] at hx
        exact h3 x hx
      · intro x hx hmx
        simp only [sweepStep, if_neg hband, if_neg hgt]
        rcases List.mem_append.mp hx with hx | hx
        · exact h4 x hx hmx
        · rw [List.mem_singleton.mp hx] at hmx ⊢; linarith

theorem sweep_inv (v : ℕ → ℚ) : ∀ (acts seen : List ℕ) (st : Option ℚ × List ℕ),
    sweepInv v seen st → sweepInv v (seen ++ acts) (acts.foldl (sweepStep v) st) := by
  intro acts
  induction acts with
  | nil => intro seen st h; simpa using h
  | cons a t ih =>
    intro seen st h
    have h2 := ih (seen ++ [a]) (sweepStep v st a) (step_inv v a h)
    simpa [List.append_assoc] using h2

theorem sweep_amended (v : ℕ → ℚ) (acts : List ℕ) (hne : acts ≠ []) :
    (∀ a ∈ acts, (∀ b ∈ acts, v b ≤ v a) → a ∈ (acts.foldl (sweepStep v) (none, [])).2)
    ∧ ∀ a ∈ (acts.foldl (sweepStep v) (none, [])).2, ∀ b ∈ acts, v b < v a + 2/10000 := by
  obtain ⟨a0, t, rfl⟩ : ∃ a0 t, acts = a0 :: t := by
    cases acts with
    | nil => exact absurd rfl hne
    | cons x xs => exact ⟨x, xs, rfl⟩
  have hbase : sweepInv v [a0] (sweepStep v (none, []) a0) := by
    refine ⟨v a0, rfl, ⟨a0, by simp, rfl⟩, ?_, ?_, ?_⟩
    · intro b hb
      rw [List.mem_singleton.mp hb]
      norm_num
    · intro x hx
      simp only [sweepStep] at hx
      rw [List.mem_singleton.mp hx]
      norm_num
    · intro x hx _
      simp only [sweepStep]
      rw [List.mem_singleton.mp hx]
      simp
  have hInv := sweep_inv v t [a0] (sweepStep v (none, []) a0) hbase
  rw [List.foldl_cons]
  obtain ⟨m, h1, ⟨c, hc, hcm⟩, h2, h3, h4⟩ := hInv
  have hseen : ([a0] ++ t) = a0 :: t := by simp
  rw [hseen] at h2 h4 hc
  constructor
  · intro a ha hmax
    apply h4 a ha
    rw [← hcm]
    exact hmax c hc
  · intro a ha b hb
    have hva : m - 1/10000 < v a := h3 a ha
    have hvb : v b < m + 1/10000 := h2 b hb
    linarith

theorem mc_aux (dflt : ℚ) : ∀ (L : List ℚ) (s : ℚ) (n : ℕ), 1 ≤ n →
    L.foldl (mcApply dflt) (some (s / n), n)
      = (some ((s + L.sum) / (n + L.length)), n + L.length) := by
  intro L
  induction L with
  | nil => intro s n hn; simp
  | cons g t ih =>
    intro s n hn
    have hn0 : (n : ℚ) ≠ 0 := Nat.cast_ne_zero.mpr (by omega)
    have hn1 : ((n : ℚ) + 1) ≠ 0 := by positivity
    have hval : (s / (n : ℚ)) * (n : ℚ) / ((n : ℚ) + 1) + g / ((n : ℚ) + 1)
        = (s + g) / ((n : ℚ) + 1) := by
      field_simp
    have hstep : mcApply dflt (some (s / (n : ℚ)), n) g
        = (some ((s + g) / ((n : ℚ) + 1)), n + 1) := by
      simp only [mcApply, Option.getD_some]
      rw [hval]
    rw [List.foldl_cons, hstep]
    have h2 := ih (s + g) (n + 1) (by omega)
    push_cast at h2
    rw [h2]
    simp only [List.sum_cons, List.length_cons, Prod.mk.injEq]
    refine ⟨?_, by omega⟩
    congr 1
    push_cast
    ring_nf

theorem mc_mean_core (dflt : ℚ) (L : List ℚ) (hne : L ≠ []) :
    L.foldl (mcApply dflt) (none, 0)
      = (some (L.sum / L.length), L.length) := by
  obtain ⟨g, t, rfl⟩ : ∃ g t, L = g :: t := by
    cases L with
    | nil => exact absurd rfl hne
    | cons x xs => exact ⟨x, xs, rfl⟩
  have hstep : mcApply dflt (none, 0) g = (some (g / ((1 : ℕ) : ℚ)), 1) := by
    simp only [mcApply, Option.getD_none]
    norm_num
  rw [List.foldl_cons, hstep]
  have h2 := mc_aux dflt t g 1 le_rfl
  rw [h2]
  simp only [List.sum_cons, List.length_cons, Prod.mk.injEq]
  refine ⟨?_, by omega⟩
  congr 1
  push_cast
  ring_nf

theorem qLoop_step (g : Game) (pc : Char) (rf : Game → Char → Option ℤ → ℚ)
    (dflt alpha discount : ℚ) (player : Char) (rs : ℕ → ℕ) (e : ℤ)
    (fuel : ℕ) (i : ℤ) (k : ℕ) (Q : QMap)
    (hlt : i < e)
    (reward : ℚ) (hr : rf g pc (some (i + 2)) = reward)
    (oldKey : String)
    (hok : getKey Q (g.stateHistory.getD i.toNat []) (g.actionHistory.getD i.toNat 0) = oldKey)
    (oldQ : ℚ) (hoq : qval Q dflt oldKey = oldQ)
    (fa : ℕ) (hpol : policyGreedy Q dflt player g (some (i + 2).toNat) (rs k) = some fa)
    (futureKey : String) (hfk : getKey Q (g.stateHistory.getD (i + 2).toNat []) fa = futureKey)
    (futureQ : ℚ) (hfq : qval Q dflt futureKey = futureQ)
    (v : ℚ) (hv : oldQ + alpha * (reward + discount * futureQ - oldQ) = v)
    (Q2 : QMap) (hQ : setQ Q oldKey v = Q2) :
    qLoop g pc rf dflt alpha discount player rs e (fuel + 1) i k Q
      = qLoop g pc rf dflt alpha discount player rs e fuel (i + 2) (k + 1) Q2 := by
  simp only [qLoop, if_pos hlt, hr, hok, hoq, hpol, hfk, hfq, hv, hQ]

theorem qLoop_stop (g : Game) (pc : Char) (rf : Game → Char → Option ℤ → ℚ)
    (dflt alpha discount : ℚ) (player : Char) (rs : ℕ → ℕ) (e : ℤ)
    (fuel : ℕ) (i : ℤ) (k : ℕ) (Q : QMap) (hlt : ¬ i < e) :
    qLoop g pc rf dflt alpha discount player rs e (fuel + 1) i k Q = some Q := by
  simp only [qLoop, if_neg hlt]

theorem updateQ_run (ag : QAgent) (g : Game) (pc : Char)
    (rf : Game → Char → Option ℤ → ℚ) (rs : ℕ → ℕ)
    (e : ℤ)
    (he : (if (pc == 'X' && (g.stateHistory.length : ℤ) % 2 == 0)
              || (pc == 'O' && (g.stateHistory.length : ℤ) % 2 != 0)
           then (g.stateHistory.length : ℤ) - 2
           else (g.stateHistory.length : ℤ) - 3) = e)
    (st : ℤ) (hst : (if pc == 'X' then (0 : ℤ) else 1) = st)
    (Qmid : QMap)
    (hloop : qLoop g pc rf ag.defaultQ ag.alpha ag.discount ag.player rs e
      (e - st).toNat st 0 ag.Q = some Qmid)
    (tr : ℚ) (htr : rf g pc none = tr)
    (tk : String)
    (htk : getKey Qmid (g.stateHistory.getD e.toNat []) (g.actionHistory.getD e.toNat 0) = tk)
    (tq : ℚ) (htq : qval Qmid ag.defaultQ tk = tq)
    (v : ℚ) (hv : tq + ag.alpha * (tr - tq) = v)
    (Qfin : QMap) (hfin : setQ Qmid tk v = Qfin) :
    updateQ ag g pc rf rs = some { ag with Q := Qfin } := by
  simp only [updateQ, he, hst, hloop, htr, htk, htq, hv, hfin]

theorem bestActionsC3_first : bestActions tableC3 0 sh2 [4, 5, 7, 8] = [4] := by
  have a4 : getKey tableC3 sh2 4 = "XO_______4" := by decide
  have a5 : getKey tableC3 sh2 5 = "XO_______5" := by decide
  have a7 : getKey tableC3 sh2 7 = "XO_______7" := by decide
  have a8 : getKey tableC3 sh2 8 = "XO_______8" := by decide
  have w4 : qval tableC3 0 "XO_______4" = 2 := by decide
  have w5 : qval tableC3 0 "XO_______5" = 0 := by decide
  have w7 : qval tableC3 0 "XO_______7" = 0 := by decide
  have w8 : qval tableC3 0 "XO_______8" = 0 := by decide
  simp only [bestActions, sweep, List.foldl, sweepStep, a4, a5, a7, a8, w4, w5, w7, w8]
  norm_num

theorem policyC3_first : policyGreedy tableC3 0 'X' gameC3 (some 2) 0 = some 4 := by
  have hva : getValidActionsCall gameC3 (some 2) = [4, 5, 7, 8] := by decide
  have hd2 : gameC3.stateHistory.getD 2 [] = sh2 := rfl
  simp only [policyGreedy, hva, hd2, bestActionsC3_first]
  norm_num
  decide

theorem bestActionsC3_second : bestActions tableC3a 0 sh4 [4, 5, 7, 8] = [5] := by
  have a4 : getKey tableC3a sh4 4 = "XOOX_____4" := by decide
  have a5 : getKey tableC3a sh4 5 = "XOOX_____5" := by decide
  have a7 : getKey tableC3a sh4 7 = "XOOX_____7" := by decide
  have a8 : getKey tableC3a sh4 8 = "XOOX_____8" := by decide
  have w4 : qval tableC3a 0 "XOOX_____4" = 0 := by decide
  have w5 : qval tableC3a 0 "XOOX_____5" = 3 := by decide
  have w7 : qval tableC3a 0 "XOOX_____7" = 0 := by decide
  have w8 : qval tableC3a 0 "XOOX_____8" = 0 := by decide
  simp only [bestActions, sweep, List.foldl, sweepStep, a4, a5, a7, a8, w4, w5, w7, w8]
  norm_num

theorem policyC3_second : policyGreedy tableC3a 0 'X' gameC3 (some 4) 0 = some 5 := by
  have hva : getValidActionsCall gameC3 (some 4) = [4, 5, 7, 8] := by decide
  have hd4 : gameC3.stateHistory.getD 4 [] = sh4 := rfl
  simp only [policyGreedy, hva, hd4, bestActionsC3_second]
  norm_num
  decide

set_option maxHeartbeats 1000000 in
theorem updateQ_gameC3_eval :
    updateQ agentC3 gameC3 'X' terminalOnly (fun _ => 0)
      = some { agentC3 with Q := tableC3c } := by
  have step1 : qLoop gameC3 'X' terminalOnly 0 1 1 'X' (fun _ => 0) 4 4 0 0 tableC3
      = qLoop gameC3 'X' terminalOnly 0 1 1 'X' (fun _ => 0) 4 3 2 1 tableC3a :=
    qLoop_step gameC3 'X' terminalOnly 0 1 1 'X' (fun _ => 0) 4 3 0 0 tableC3
      (by norm_num) 1 (by decide) "_________0" (by decide) 0 (by decide) 4 policyC3_first
      "XO_______4" (by decide) 2 (by decide) 3 (by norm_num) tableC3a (by decide)
  have step2 : qLoop gameC3 'X' terminalOnly 0 1 1 'X' (fun _ => 0) 4 3 2 1 tableC3a
      = qLoop gameC3 'X' terminalOnly 0 1 1 'X' (fun _ => 0) 4 2 4 2 tableC3b :=
    qLoop_step gameC3 'X' terminalOnly 0 1 1 'X' (fun _ => 0) 4 2 2 1 tableC3a
      (by norm_num) 1 (by decide) "XO_______3" (by decide) 0 (by decide) 5 policyC3_second
      "XOOX_____5" (by decide) 3 (by decide) 4 (by norm_num) tableC3b (by decide)
  have step3 : qLoop gameC3 'X' terminalOnly 0 1 1 'X' (fun _ => 0) 4 2 4 2 tableC3b
      = some tableC3b :=
    qLoop_stop gameC3 'X' terminalOnly 0 1 1 'X' (fun _ => 0) 4 1 4 2 tableC3b (by norm_num)
  have hchain : qLoop gameC3 'X' terminalOnly 0 1 1 'X' (fun _ => 0) 4 4 0 0 tableC3
      = some tableC3b :=
    step1.trans (step2.trans step3)
  exact updateQ_run agentC3 gameC3 'X' terminalOnly (fun _ => 0) 4
    (by norm_num [show gameC3.stateHistory.length = 6 from rfl]) 0 (by norm_num)
    tableC3b hchain 1 (by decide) "XOOX_____6" (by decide) 0 (by decide)
    1 (by norm_num [agentC3]) tableC3c (by decide)

/-! Claim theorems. -/

/-- C1: with the table holding exactly one key — the hash of the
mirrored-then-rotated variant of (stateC1, action 1), an equivalent pair
under the board's symmetry group — getKey does not return that existing key:
it falls through both sweeps and returns the fresh literal hash of the
queried pair, because the mirrored sweep rotates the mirrored state by an
absent rotation count and hashes an empty board. -/
theorem getKey_mirror_representative_missed :
    lookupQ tableC1 "________X5" = some 0
    ∧ hash (rot90 (mirror stateC1) (some 1))
        ((toActionIndex (rot90 (mirror (toActionArray 1)) (some 1))).getD 0) = "________X5"
    ∧ getKey tableC1 stateC1 1 = hash stateC1 1
    ∧ hash stateC1 1 = "X________1"
    ∧ "X________1" ≠ "________X5" := by
  refine ⟨by decide, by decide, by decide, by decide, by decide⟩

/-- C2: with no unmirrored rotated key present, the claim says the mirrored
sweep computes, for n = 1, 2, 3, the hash of the mirrored state rotated by
n quarter-turns with the recovered action index (specMirrorSweepKeys), and
returns the first that exists in the table.  The code instead calls rot90
without its rotation count, so the state part of every mirrored candidate is
the empty string: the candidates are the bare digit strings, the existing
equivalent key "________X5" is never tested, and getKey returns the fresh
literal hash. -/
theorem mirrorSweepKeys_bare_digits :
    (∀ k ∈ rotSweepKeys stateC2 1, lookupQ tableC2 k = none)
    ∧ specMirrorSweepKeys stateC2 1 = ["________X5", "______X__7", "X________3"]
    ∧ lookupQ tableC2 "________X5" = some 0
    ∧ mirrorSweepKeys stateC2 1 = ["5", "7", "3"]
    ∧ getKey tableC2 stateC2 1 = hash stateC2 1
    ∧ hash stateC2 1 ≠ "________X5" := by
  refine ⟨by decide, by decide, by decide, by decide, by decide, by decide⟩

/-- C3: running updateQ on the finished gameC3 stores 3 at the key of
(sh0, 0), not the value the claim requires.  The greedy future action for
horizon 2 is chosen among getValidActions' result — the empty cells
[4, 5, 7, 8] of the live terminal board — although the historical state sh2
has legal actions [2..8] whose best table value is 5 (at action 6, a cell
occupied later in the game).  The claim's update value at ply 0 would be
0 + 1 * (1 + 1 * 5 - 0) = 6; the code stores 3. -/
theorem updateQ_greedy_from_terminal_board :
    updateQ agentC3 gameC3 'X' terminalOnly (fun _ => 0)
      = some { agentC3 with Q := tableC3c }
    ∧ lookupQ tableC3c "_________0" = some 3
    ∧ getValidActionsCall gameC3 (some 2) = [4, 5, 7, 8]
    ∧ emptyCellIndices sh2 '_' = [2, 3, 4, 5, 6, 7, 8]
    ∧ terminalOnly gameC3 'X' (some 2) = 1
    ∧ qval agentC3.Q 0 (getKey agentC3.Q sh2 6) = 5
    ∧ (∀ b ∈ emptyCellIndices sh2 '_', qval agentC3.Q 0 (getKey agentC3.Q sh2 b) ≤ 5)
    ∧ agentC3.defaultQ + agentC3.alpha * (1 + agentC3.discount * 5 - agentC3.defaultQ) = 6
    ∧ (3 : ℚ) ≠ 6 := by
  refine ⟨updateQ_gameC3_eval, by decide, by decide, by decide, by decide, by decide,
    by decide, by norm_num [agentC3], by norm_num⟩

/-- C4: the legal-action query drops its horizon argument (the method
declares no parameter), so after X moves at cell 0 the query at horizon 0
returns the empty cells of the live state, not of the initial snapshot
stateHistory[0] as the claim requires.  The no-horizon clause of the claim
does hold: with no horizon the empty cells of the current state are
returned. -/
theorem getValidActions_drops_horizon :
    getValidActionsCall gameC4 (some 0) = [1, 2, 3, 4, 5, 6, 7, 8]
    ∧ emptyCellIndices (gameC4.stateHistory.getD 0 []) gameC4.nll
        = [0, 1, 2, 3, 4, 5, 6, 7, 8]
    ∧ getValidActionsCall gameC4 (some 0)
        ≠ emptyCellIndices (gameC4.stateHistory.getD 0 []) gameC4.nll
    ∧ getValidActionsCall gameC4 none = emptyCellIndices gameC4.state gameC4.nll := by
  refine ⟨by decide, by decide, by decide, by decide⟩

/-- C5 counterexample: on stateC5 with legal actions [6, 7, 8] valued 0,
9e-5 and 18e-5, the greedy branch's tie set is [8] alone, while the set of
legal actions within the 1e-4 tolerance of the maximum is [7, 8]: action 7
joined the tie set while the running maximum was 0, and was discarded when
18e-5 reset it, even though 18e-5 - 9e-5 < 1e-4. -/
theorem bestActions_running_max_counterexample :
    bestActions tableC5 0 stateC5 [6, 7, 8] = [8]
    ∧ nearMaxSet tableC5 0 stateC5 [6, 7, 8] = [7, 8]
    ∧ bestActions tableC5 0 stateC5 [6, 7, 8] ≠ nearMaxSet tableC5 0 stateC5 [6, 7, 8] := by
  have k6 : getKey tableC5 stateC5 6 = "XOXOXO___6" := by decide
  have k7 : getKey tableC5 stateC5 7 = "XOXOXO___7" := by decide
  have k8 : getKey tableC5 stateC5 8 = "XOXOXO___8" := by decide
  have w6 : qval tableC5 0 "XOXOXO___6" = 0 := rfl
  have w7 : qval tableC5 0 "XOXOXO___7" = 9/100000 := rfl
  have w8 : qval tableC5 0 "XOXOXO___8" = 18/100000 := rfl
  have hb : bestActions tableC5 0 stateC5 [6, 7, 8] = [8] := by
    simp only [bestActions, sweep, List.foldl, sweepStep, k6, k7, k8, w6, w7, w8]
    norm_num
  have hn : nearMaxSet tableC5 0 stateC5 [6, 7, 8] = [7, 8] := by
    simp only [nearMaxSet, List.filter_cons, List.filter_nil, List.all_cons, List.all_nil,
      k6, k7, k8, w6, w7, w8]
    norm_num
  refine ⟨hb, hn, ?_⟩
  rw [hb, hn]
  decide

/-- C5 amended: the tie set computed by the greedy branch always contains
every legal action attaining the maximum canonical-key value, and every
member's value exceeds the maximum minus 2e-4 (equivalently every value is
below the member's value plus 2e-4) — but the tie set need not equal the
within-1e-4-of-the-maximum set, because the 1e-4 band is applied against a
running maximum that may trail the true maximum by up to 1e-4. -/
theorem bestActions_argmax_and_2tol (Q : QMap) (dflt : ℚ) (state : List Char)
    (acts : List ℕ) (hne : acts ≠ []) :
    (∀ a ∈ acts,
      (∀ b ∈ acts, qval Q dflt (getKey Q state b) ≤ qval Q dflt (getKey Q state a)) →
      a ∈ bestActions Q dflt state acts)
    ∧ ∀ a ∈ bestActions Q dflt state acts, ∀ b ∈ acts,
        qval Q dflt (getKey Q state b) < qval Q dflt (getKey Q state a) + 2/10000 :=
  sweep_amended (fun a => qval Q dflt (getKey Q state a)) acts hne

/-- C5 amended, witness: on a two-action instance with an empty table the
argmax action 0 belongs to the tie set. -/
theorem bestActions_argmax_and_2tol_witness :
    (([0, 1] : List ℕ) ≠ []) ∧ 0 ∈ bestActions [] 0 [] [0, 1] :=
  ⟨by decide,
    (bestActions_argmax_and_2tol [] 0 [] [0, 1] (by decide)).1 0 (by decide)
      (by intro b _; simp [qval, lookupQ])⟩

/-- C6: the MonteCarloAgent and QLearningAgent constructors run the
EpsilonGreedyAgent constructor, whose `self.epsilon = epsilon` assigns a
property of the JavaScript global object rather than of the instance, so
the constructed agent's own epsilon field is unset (none) instead of the
passed exploration rate. -/
theorem constructor_epsilon_unset :
    (mkMonteCarloAgent 'X' (1/2) 1 0).epsilon = none
    ∧ (mkQLearningAgent 'X' (1/2) 1 (1/10) 0).epsilon = none
    ∧ (none : Option ℚ) ≠ some (1/2) :=
  ⟨rfl, rfl, by decide⟩

/-- C7: starting from an absent entry (no stored value, count 0), applying
the Monte-Carlo incremental-mean update for a list of discounted returns
leaves the exact arithmetic mean as the stored value and the list length as
the visit count, independently of the default value and of the order of
arrival of the returns. -/
theorem mc_incremental_mean (dflt : ℚ) (L : List ℚ) (hne : L ≠ []) :
    (L.foldl (mcApply dflt) (none, 0)).1 = some (L.sum / L.length)
    ∧ (L.foldl (mcApply dflt) (none, 0)).2 = L.length
    ∧ ∀ Lp : List ℚ, L.Perm Lp →
        Lp.foldl (mcApply dflt) (none, 0) = L.foldl (mcApply dflt) (none, 0) := by
  refine ⟨by rw [mc_mean_core dflt L hne], by rw [mc_mean_core dflt L hne], ?_⟩
  intro Lp hp
  have hne2 : Lp ≠ [] := by
    intro hnil
    subst hnil
    exact hne hp.eq_nil
  rw [mc_mean_core dflt L hne, mc_mean_core dflt Lp hne2, hp.sum_eq, hp.length_eq]

/-- C7 witness: returns 1 and 2 with default 7 average to 3/2 with count 2,
and the reversed order gives the same table entry. -/
theorem mc_incremental_mean_witness :
    (([1, 2] : List ℚ) ≠ [])
    ∧ (([1, 2] : List ℚ).foldl (mcApply 7) (none, 0)).1
        = some (([1, 2] : List ℚ).sum / ([1, 2] : List ℚ).length)
    ∧ (([1, 2] : List ℚ).foldl (mcApply 7) (none, 0)).2 = ([1, 2] : List ℚ).length
    ∧ ([2, 1] : List ℚ).foldl (mcApply 7) (none, 0)
        = ([1, 2] : List ℚ).foldl (mcApply 7) (none, 0) :=
  ⟨by decide, (mc_incremental_mean 7 [1, 2] (by decide)).1,
    (mc_incremental_mean 7 [1, 2] (by decide)).2.1,
    (mc_incremental_mean 7 [1, 2] (by decide)).2.2 [2, 1] (by decide)⟩

/-- C8: move throws exactly when the index is outside [0, 8], the target
cell is occupied, or the game already has a terminal outcome (the checks
precede every mutation, so a failing move leaves the game unchanged); on
success it places the current player's token at the index, leaves every
other cell unchanged, switches the player, and appends the action index and
a snapshot of the new board to the histories. -/
theorem move_spec (g : Game) (idx : ℤ) (h9 : g.state.length = 9) :
    ((∃ msg, move g idx = Except.error msg) ↔
      (idx < 0 ∨ 8 < idx ∨ g.state.getD idx.toNat default ≠ g.nll
        ∨ checkTermination g.state g.nll ≠ ""))
    ∧ ∀ g2, move g idx = Except.ok g2 →
        0 ≤ idx ∧ idx ≤ 8
        ∧ g2.state = g.state.set idx.toNat g.currentPlayer
        ∧ g2.state.getD idx.toNat default = g.currentPlayer
        ∧ (∀ j, j ≠ idx.toNat → g2.state.getD j default = g.state.getD j default)
        ∧ g2.currentPlayer = (if g.currentPlayer == 'X' then 'O' else 'X')
        ∧ g2.actionHistory = g.actionHistory ++ [idx.toNat]
        ∧ g2.stateHistory = g.stateHistory ++ [g2.state]
        ∧ g2.nll = g.nll := by
  by_cases h1 : 9 ≤ idx ∨ idx < 0
  · constructor
    · constructor
      · intro _
        rcases h1 with h1 | h1
        · right; left; omega
        · left; exact h1
      · intro _
        exact ⟨_, by rw [move, if_pos h1]⟩
    · intro g2 hok
      rw [move, if_pos h1] at hok
      exact absurd hok (by simp)
  · by_cases h2 : ¬(g.state.getD idx.toNat default == g.nll)
    · constructor
      · constructor
        · intro _
          right; right; left
          simpa using h2
        · intro _
          exact ⟨_, by rw [move, if_neg h1, if_pos h2]⟩
      · intro g2 hok
        rw [move, if_neg h1, if_pos h2] at hok
        exact absurd hok (by simp)
    · by_cases h3 : ¬(checkTermination g.state g.nll == "")
      · constructor
        · constructor
          · intro _
            right; right; right
            simpa using h3
          · intro _
            exact ⟨_, by rw [move, if_neg h1, if_neg h2, if_pos h3]⟩
        · intro g2 hok
          rw [move, if_neg h1, if_neg h2, if_pos h3] at hok
          exact absurd hok (by simp)
      · have hmove : move g idx = Except.ok
            { g with
              state := g.state.set idx.toNat g.currentPlayer
              currentPlayer := if g.currentPlayer == 'X' then 'O' else 'X'
              actionHistory := g.actionHistory ++ [idx.toNat]
              stateHistory := g.stateHistory ++ [g.state.set idx.toNat g.currentPlayer] } := by
          rw [move, if_neg h1, if_neg h2, if_neg h3]
        constructor
        · constructor
          · intro ⟨msg, hmsg⟩
            rw [hmove] at hmsg
            exact absurd hmsg (by simp)
          · intro hcond
            push_neg at h1 h2 h3
            rcases hcond with hc | hc | hc | hc
            · omega
            · omega
            · exact absurd (by simpa using h2) hc
            · exact absurd (by simpa using h3) hc
        · intro g2 hok
          rw [hmove] at hok
          have hg2 := Except.ok.inj hok
          subst hg2
          push_neg at h1
          have hidx : idx.toNat < g.state.length := by
            rw [h9]; omega
          refine ⟨by omega, by omega, rfl, ?_, ?_, rfl, rfl, rfl, rfl⟩
          · simp only [List.getD_eq_getElem?_getD]
            rw [List.getElem?_set_self']
            simp [List.getElem?_eq_getElem hidx]
          · intro j hj
            simp only [List.getD_eq_getElem?_getD]
            rw [List.getElem?_set_ne (by omega)]

/-- C8 witness: the first move at index 0 of a fresh game succeeds and
produces gameC8, whose player has switched to O and whose action history
ends with 0. -/
theorem move_spec_witness :
    (initGame '_').state.length = 9
    ∧ gameC8.currentPlayer = (if (initGame '_').currentPlayer == 'X' then 'O' else 'X')
    ∧ gameC8.actionHistory = (initGame '_').actionHistory ++ [(0 : ℤ).toNat]
    ∧ gameC8.stateHistory = (initGame '_').stateHistory ++ [gameC8.state] := by
  have h := (move_spec (initGame '_') 0 (by decide)).2 gameC8 rfl
  exact ⟨by decide, h.2.2.2.2.2.1, h.2.2.2.2.2.2.1, h.2.2.2.2.2.2.2.1⟩

/-- C9: on a 9-cell board, when exactly one of the 8 lines is fully owned by
a token, checkTermination returns that token; it returns "draw" exactly when
no cell is EMPTY and no line is won; it returns the empty outcome when no
line is won and an EMPTY cell remains; and on a full board containing a
winning line it returns a winning token, never "draw". -/
theorem checkTermination_outcomes (s : List Char) (nll : Char) (h9 : s.length = 9) :
    (∀ l tok, l ∈ lines → (tok = 'X' ∨ tok = 'O') → owns s l tok = true →
      (∀ lp, lp ∈ lines → (owns s lp 'X' || owns s lp 'O') = true → lp = l) →
      checkTermination s nll = String.mk [tok])
    ∧ (checkTermination s nll = "draw" ↔
        (isFull s nll = true ∧ wonBy s 'X' = false ∧ wonBy s 'O' = false))
    ∧ (wonBy s 'X' = false → wonBy s 'O' = false → isFull s nll = false →
        checkTermination s nll = "")
    ∧ (isFull s nll = true → (wonBy s 'X' || wonBy s 'O') = true →
        checkTermination s nll ≠ "draw" ∧
        ∃ tok, (tok = 'X' ∨ tok = 'O') ∧ wonBy s tok = true ∧
          checkTermination s nll = String.mk [tok]) := by
  refine ⟨?_, ?_, ?_, ?_⟩
  · intro l tok hl htok howns huniq
    have hWtok : wonBy s tok = true := by
      simp only [wonBy, List.any_eq_true]
      exact ⟨l, hl, howns⟩
    rcases htok with rfl | rfl
    · have hO : wonBy s 'O' = false := by
        by_contra hO
        rw [Bool.not_eq_false, wonBy, List.any_eq_true] at hO
        obtain ⟨lp, hlp, hop⟩ := hO
        rcases huniq lp hlp (by simp [hop]) with rfl
        exact owns_not_both hl howns hop
      exact ct_X hWtok hO
    · have hX : wonBy s 'X' = false := by
        by_contra hX
        rw [Bool.not_eq_false, wonBy, List.any_eq_true] at hX
        obtain ⟨lp, hlp, hop⟩ := hX
        rcases huniq lp hlp (by simp [hop]) with rfl
        exact owns_not_both hl hop howns
      exact ct_O hWtok hX
  · constructor
    · intro hdraw
      rcases ct_cases s nll with ⟨h, _⟩ | ⟨h, _⟩ | ⟨hx, ho, h⟩
      · exact absurd (h.symm.trans hdraw) (by decide)
      · exact absurd (h.symm.trans hdraw) (by decide)
      · rw [h] at hdraw
        cases hid : isDraw s nll
        · rw [hid] at hdraw
          exact absurd hdraw (by decide)
        · refine ⟨?_, hx, ho⟩
          rw [← isDraw_eq_isFull nll h9]
          exact hid
    · rintro ⟨hfull, hx, ho⟩
      rw [ct_none hx ho, isDraw_eq_isFull nll h9, hfull]
      rfl
  · intro hx ho hnf
    rw [ct_none hx ho, isDraw_eq_isFull nll h9, hnf]
    rfl
  · intro hfull hwin
    rcases ct_cases s nll with ⟨h, hw⟩ | ⟨h, hw⟩ | ⟨hx, ho, _⟩
    · exact ⟨by rw [h]; decide, 'X', Or.inl rfl, hw, by rw [h]⟩
    · exact ⟨by rw [h]; decide, 'O', Or.inr rfl, hw, by rw [h]⟩
    · rw [hx, ho] at hwin
      simp at hwin

/-- C9 witness: on the board whose only owned line is the X top row,
checkTermination returns "X". -/
theorem checkTermination_outcomes_witness :
    stateC9.length = 9 ∧ checkTermination stateC9 '_' = String.mk ['X'] :=
  ⟨by decide,
    (checkTermination_outcomes stateC9 '_' (by decide)).1 [0, 1, 2] 'X' (by decide)
      (Or.inl rfl) (by decide) (by decide)⟩

/-- C10: on every 9-element state array, four successive clockwise
quarter-turn rotations give back the array, a rotation count divisible by 4
returns the array unchanged, and the vertical mirror is an involution — the
transforms generate the 8-element symmetry group of the square. -/
theorem rot90_mirror_symmetry_group {α : Type} [Inhabited α] (s : List α)
    (h9 : s.length = 9) :
    rot90 (rot90 (rot90 (rot90 s (some 1)) (some 1)) (some 1)) (some 1) = s
    ∧ (∀ n : ℕ, n % 4 = 0 → rot90 s (some n) = s)
    ∧ mirror (mirror s) = s := by
  obtain ⟨c0, c1, c2, c3, c4, c5, c6, c7, c8, rfl⟩ := nine_elems s h9
  refine ⟨rfl, ?_, rfl⟩
  intro n hn
  simp [rot90, hn]

/-- C10 witness: the symmetry identities evaluated on a concrete board of
nine distinct cells. -/
theorem rot90_mirror_symmetry_group_witness :
    stateC10.length = 9
    ∧ rot90 (rot90 (rot90 (rot90 stateC10 (some 1)) (some 1)) (some 1)) (some 1) = stateC10
    ∧ rot90 stateC10 (some 4) = stateC10
    ∧ mirror (mirror stateC10) = stateC10 := by
  have h := rot90_mirror_symmetry_group stateC10 (by decide)
  exact ⟨by decide, h.1, h.2.1 4 (by decide), h.2.2⟩

end XO
